import Mathlib

/-!
Shallow embedding of the core logic of `fastapi_test/main.py`:
the PII sanitizer `_mask_sensitive`, the sliding-window rate limiter
`_rate_limited`, the LLM response parser `_parse_model_json`, the PDF
loader `_load_pdf_reader` and the stamping arithmetic of `_stamp_pdf`.
Strings are modelled as `List Char`, Python floats as `ℚ`.
-/

/-! ## PII sanitizer: `_mask_sensitive` (main.py lines 95-112)

Python `re` word characters (`\w` / `\b`) are modelled for ASCII text as
letters, digits and underscore.  Each regex of the `patterns` list is
translated into an anchored matcher that, given whether the preceding
character is a word character and the remaining text, returns the length
of the (leftmost-longest-per-backtracking) match at this position, exactly
as the CPython backtracking engine resolves it; `re.sub` becomes a
left-to-right scan that replaces each non-overlapping match by the token
`[REDACTED]` and resumes after it, and `re.search` is the fact that this
scan fired at least once. -/

/-- ASCII word character: models Python `\w` for the ASCII texts considered. -/
def isWordChar (c : Char) : Bool := c.isAlphanum || c == '_'

/-- The fixed redaction token `[REDACTED]` of `_mask_sensitive`. -/
def redactedToken : List Char := ['[', 'R', 'E', 'D', 'A', 'C', 'T', 'E', 'D', ']']

/-- An anchored matcher: first argument tells whether the previous character
is a word character (false at the start of the text); result is the number of
characters consumed by a match starting here (always at least 1), or `none`. -/
def MatchFn : Type := Bool → List Char → Option Nat

/-- One left-to-right `re.sub` scan (fuel-indexed for structural recursion;
fuel `s.length` always suffices).  Returns the rewritten text and whether any
match was replaced (the latter is also the truth of `re.search`). -/
def scanSubF (m : MatchFn) : Nat → Bool → List Char → List Char × Bool
  | 0, _, rest => (rest, false)
  | _ + 1, _, [] => ([], false)
  | fuel + 1, p, c :: cs =>
    match m p (c :: cs) with
    | some k =>
      let r := scanSubF m fuel (isWordChar ((c :: cs).getD (k - 1) ' ')) (List.drop (k - 1) cs)
      (redactedToken ++ r.1, true)
    | none =>
      let r := scanSubF m fuel (isWordChar c) cs
      (c :: r.1, r.2)

/-- The `re.sub` scan over a whole text, started at a text boundary. -/
def reScan (m : MatchFn) (s : List Char) : List Char × Bool :=
  scanSubF m s.length false s

/-- `re.sub(pattern, "[REDACTED]", s)`. -/
def reSub (m : MatchFn) (s : List Char) : List Char := (reScan m s).1

/-- Truth value of `re.search(pattern, s)`. -/
def reSearch (m : MatchFn) (s : List Char) : Bool := (reScan m s).2

/-- `\b` after `n` consumed characters: end of text or a non-word character. -/
def afterBoundary (l : List Char) (n : Nat) : Bool :=
  decide (l.length ≤ n) || !isWordChar (l.getD n ' ')

/-- Shape of `\d{3}-\d{2}-\d{4}` at the head of `l`. -/
def isShapeSSN (l : List Char) : Bool :=
  decide (11 ≤ l.length) && (l.getD 0 ' ').isDigit && (l.getD 1 ' ').isDigit
    && (l.getD 2 ' ').isDigit && (l.getD 3 ' ' == '-') && (l.getD 4 ' ').isDigit
    && (l.getD 5 ' ').isDigit && (l.getD 6 ' ' == '-') && (l.getD 7 ' ').isDigit
    && (l.getD 8 ' ').isDigit && (l.getD 9 ' ').isDigit && (l.getD 10 ' ').isDigit

/-- Matcher for `\b\d{3}-\d{2}-\d{4}\b` (the "SSN/SIN" rule).  The leading
`\b` before a digit is exactly "previous character is not a word character". -/
def ssnM : MatchFn := fun p l =>
  if !p && isShapeSSN l && afterBoundary l 11 then some 11 else none

/-- Shape of `\d{9}` at the head of `l`. -/
def isShapeSIN (l : List Char) : Bool :=
  decide (9 ≤ l.length) && (l.getD 0 ' ').isDigit && (l.getD 1 ' ').isDigit
    && (l.getD 2 ' ').isDigit && (l.getD 3 ' ').isDigit && (l.getD 4 ' ').isDigit
    && (l.getD 5 ' ').isDigit && (l.getD 6 ' ').isDigit && (l.getD 7 ' ').isDigit
    && (l.getD 8 ' ').isDigit

/-- Matcher for `\b\d{9}\b` (the "SIN" rule). -/
def sinM : MatchFn := fun p l =>
  if !p && isShapeSIN l && afterBoundary l 9 then some 9 else none

/-- Separator class `[ -]` of the credit-card pattern. -/
def isSepChar (c : Char) : Bool := c == ' ' || c == '-'

/-- Extent of `k` mandatory repetitions of `\d[ -]*?`: `k` digits, each
lazy separator run expanding just enough to reach the next digit.
`some e` means the `k`-th digit ends at offset `e`. -/
def ccExt : Nat → List Char → Option Nat
  | 0, _ => none
  | 1, l =>
    match l with
    | c :: _ => if c.isDigit then some 1 else none
    | [] => none
  | k + 2, l =>
    match l with
    | c :: cs =>
      if c.isDigit then
        let g := (cs.takeWhile isSepChar).length
        match ccExt (k + 1) (cs.drop g) with
        | some e => some (1 + g + e)
        | none => none
      else none
    | [] => none

/-- Matcher for `\b(?:\d[ -]*?){13,19}\b` (the "credit card" rule), resolving
the greedy counted repetition with lazy inner separators the way the CPython
engine does: 13 mandatory repetitions cross separator gaps; the optional
repetitions 14..19 only extend through directly adjacent digits (a failing
`\d` of an optional repetition exits the loop before any lazy expansion);
then `\b` is checked at the exit point, with no further backtracking able to
move it (validated against CPython `re` on exhaustive random inputs). -/
def creditCardM : MatchFn := fun p l =>
  if p then none else
  match ccExt 13 l with
  | none => none
  | some e13 =>
    let e := e13 + min ((l.drop e13).takeWhile Char.isDigit).length 6
    if afterBoundary l e then some e else none

/-- Matcher for `\b[A-Z]{1,2}\d{6,8}\b` (first "passport" rule): a greedy
letter count, then the full adjacent digit run, which must have length 6-8
(a longer run can never end at a word boundary, and dropping back to one
letter lands on the second letter, never on a digit). -/
def passportAlphaM : MatchFn := fun p l =>
  if p then none else
  match l with
  | c :: _ =>
    if c.isUpper then
      let L : Nat := if (l.getD 1 ' ').isUpper then 2 else 1
      let D := ((l.drop L).takeWhile Char.isDigit).length
      if decide (6 ≤ D) && decide (D ≤ 8) && afterBoundary l (L + D) then some (L + D)
      else none
    else none
  | [] => none

/-- Character class `[A-Z0-9]` of the second passport pattern. -/
def isPassChar (c : Char) : Bool := c.isUpper || c.isDigit

/-- Matcher for `\b[A-Z0-9]{8,9}\b` (second "passport" rule): greedily try
nine class characters (then the ninth is a word character, so falling back to
eight can never restore the boundary), else eight. -/
def passportCodeM : MatchFn := fun p l =>
  if p then none else
  if decide (8 ≤ l.length) && isPassChar (l.getD 0 ' ') && isPassChar (l.getD 1 ' ')
      && isPassChar (l.getD 2 ' ') && isPassChar (l.getD 3 ' ') && isPassChar (l.getD 4 ' ')
      && isPassChar (l.getD 5 ' ') && isPassChar (l.getD 6 ' ') && isPassChar (l.getD 7 ' ') then
    if isPassChar (l.getD 8 ' ') then
      if afterBoundary l 9 then some 9 else none
    else
      if afterBoundary l 8 then some 8 else none
  else none

/-- The warning string `f"Sensitive data detected: {label}. Please avoid sharing it."`. -/
def sensWarning (label : String) : String :=
  "Sensitive data detected: " ++ label ++ ". Please avoid sharing it."

/-- The ordered `patterns` list of `_mask_sensitive`. -/
def maskPatterns : List (MatchFn × String) :=
  [(ssnM, "SSN/SIN"), (sinM, "SIN"), (creditCardM, "credit card"),
   (passportAlphaM, "passport"), (passportCodeM, "passport")]

/-- One iteration of the `for pattern, label in patterns` loop:
`if re.search(...): masked = re.sub(...); warnings.append(...)`. -/
def maskStep (st : List Char × List String) (pw : MatchFn × String) : List Char × List String :=
  if (reScan pw.1 st.1).2 then ((reScan pw.1 st.1).1, st.2 ++ [sensWarning pw.2]) else st

/-- `_mask_sensitive(text)`: masked text and warning list. -/
def mask_sensitive (s : List Char) : List Char × List String :=
  maskPatterns.foldl maskStep (s, [])

/-- State of `_mask_sensitive` after its first `n` pattern rules. -/
def maskUpTo (n : Nat) (s : List Char) : List Char × List String :=
  (maskPatterns.take n).foldl maskStep (s, [])

/-- Relational view of the `re.sub` scan: `SubOut m p s o` says the scan of
`s` in context `p` (previous character a word character?) can produce `o`,
keeping unmatched characters and replacing each match by the token. -/
inductive SubOut (m : MatchFn) : Bool → List Char → List Char → Prop where
  | nil (p : Bool) : SubOut m p [] []
  | keep (p : Bool) (c : Char) (cs o : List Char) :
      m p (c :: cs) = none → SubOut m (isWordChar c) cs o → SubOut m p (c :: cs) (c :: o)
  | repl (p : Bool) (c : Char) (cs : List Char) (k : Nat) (o : List Char) :
      m p (c :: cs) = some k →
      SubOut m (isWordChar ((c :: cs).getD (k - 1) ' ')) (List.drop (k - 1) cs) o →
      SubOut m p (c :: cs) (redactedToken ++ o)

/-- The context (previous character a word character?) the scan is in after
consuming the prefix `a`, having started in context `p`. -/
def ctxOf (p : Bool) (a : List Char) : Bool :=
  match a.getLast? with
  | none => p
  | some c => isWordChar c

/-! ## Rate limiter: `_rate_limited` (main.py lines 32-34, 77-86)

Monotonic-clock timestamps are modelled as rationals.  A client's record is
its deque in `_rate_bucket`, oldest first. -/

/-- `RATE_LIMIT_PER_MIN = 10`. -/
def RATE_LIMIT_PER_MIN : Nat := 10

/-- The `while q and now - q[0] > 60: q.popleft()` loop: pop entries from the
front of the record while they are older than `now - 60`. -/
def evictOld (now : ℚ) (q : List ℚ) : List ℚ :=
  q.dropWhile (fun t => decide (now - t > 60))

/-- `_rate_limited(ip)` acting on one client's record `q` at monotonic time
`now`: evict from the front, then either the call is limited (record
unchanged), or `now` is appended.  Result is `(limited?, new record)`. -/
def rate_limited (now : ℚ) (q : List ℚ) : Bool × List ℚ :=
  if RATE_LIMIT_PER_MIN ≤ (evictOld now q).length then (true, evictOld now q)
  else (false, evictOld now q ++ [now])

/-- A client's record after calls at the given times, starting from the empty
record a fresh client gets from the `defaultdict(deque)`. -/
def rateRun (ts : List ℚ) : List ℚ :=
  ts.foldl (fun q t => (rate_limited t q).2) []

/-! ## `_parse_model_json` (main.py lines 145-156), with a model of `json.loads` -/

/-- A decoded JSON value; numbers keep their lexeme (their numeric value is
irrelevant here). -/
inductive Json where
  | null : Json
  | bool (b : Bool) : Json
  | num (lexeme : String) : Json
  | str (s : String) : Json
  | arr (elems : List Json) : Json
  | obj (fields : List (String × Json)) : Json

/-- JSON whitespace. -/
def isJsonWs (c : Char) : Bool := c == ' ' || c == '\t' || c == '\n' || c == '\r'

/-- The ASCII whitespace characters `str.strip()` removes. -/
def isPyWs (c : Char) : Bool :=
  c == ' ' || c == '\t' || c == '\n' || c == '\x0d' || c == '\x0b' || c == '\x0c'

/-- Python `text.strip()`: leading and trailing whitespace removed. -/
def pyStrip (s : String) : String :=
  String.mk (((s.data.dropWhile isPyWs).reverse.dropWhile isPyWs).reverse)

/-- Drop leading JSON whitespace. -/
def skipWs (l : List Char) : List Char := l.dropWhile isJsonWs

/-- Value of a hexadecimal digit. -/
def hexVal (c : Char) : Option Nat :=
  if c.isDigit then some (c.toNat - 48)
  else if 'a' ≤ c && c ≤ 'f' then some (c.toNat - 87)
  else if 'A' ≤ c && c ≤ 'F' then some (c.toNat - 55)
  else none

/-- Body of a JSON string after the opening quote: returns the decoded
characters and the text after the closing quote. -/
def parseJStrAux : List Char → Option (List Char × List Char)
  | [] => none
  | '"' :: rest => some ([], rest)
  | '\\' :: '"' :: rest => (parseJStrAux rest).map (fun r => ('"' :: r.1, r.2))
  | '\\' :: '\\' :: rest => (parseJStrAux rest).map (fun r => ('\\' :: r.1, r.2))
  | '\\' :: '/' :: rest => (parseJStrAux rest).map (fun r => ('/' :: r.1, r.2))
  | '\\' :: 'b' :: rest => (parseJStrAux rest).map (fun r => ('\x08' :: r.1, r.2))
  | '\\' :: 'f' :: rest => (parseJStrAux rest).map (fun r => ('\x0c' :: r.1, r.2))
  | '\\' :: 'n' :: rest => (parseJStrAux rest).map (fun r => ('\n' :: r.1, r.2))
  | '\\' :: 'r' :: rest => (parseJStrAux rest).map (fun r => ('\x0d' :: r.1, r.2))
  | '\\' :: 't' :: rest => (parseJStrAux rest).map (fun r => ('\t' :: r.1, r.2))
  | '\\' :: 'u' :: h1 :: h2 :: h3 :: h4 :: rest =>
    (match hexVal h1, hexVal h2, hexVal h3, hexVal h4 with
     | some a, some b, some c, some d =>
       (parseJStrAux rest).map (fun r => (Char.ofNat (((a * 16 + b) * 16 + c) * 16 + d) :: r.1, r.2))
     | _, _, _, _ => none)
  | '\\' :: _ => none
  | c :: rest =>
    if c.toNat < 32 then none
    else (parseJStrAux rest).map (fun r => (c :: r.1, r.2))

/-- Optional fraction part `.digits`. -/
def parseFrac : List Char → Option (List Char × List Char)
  | '.' :: r =>
    let ds := r.takeWhile Char.isDigit
    if ds.isEmpty then none else some ('.' :: ds, r.dropWhile Char.isDigit)
  | l => some ([], l)

/-- Optional exponent part `[eE][+-]?digits`. -/
def parseExp : List Char → Option (List Char × List Char)
  | e :: r =>
    if e == 'e' || e == 'E' then
      let sr : List Char × List Char :=
        match r with
        | '+' :: r2 => (['+'], r2)
        | '-' :: r2 => (['-'], r2)
        | _ => ([], r)
      let ds := sr.2.takeWhile Char.isDigit
      if ds.isEmpty then none else some (e :: (sr.1 ++ ds), sr.2.dropWhile Char.isDigit)
    else some ([], e :: r)
  | [] => some ([], [])

/-- A JSON number lexeme `-?(0|[1-9][0-9]*)(.[0-9]+)?([eE][+-]?[0-9]+)?`. -/
def parseJNum (l : List Char) : Option (List Char × List Char) :=
  let sl : List Char × List Char :=
    match l with
    | '-' :: r => (['-'], r)
    | _ => ([], l)
  let ip := sl.2.takeWhile Char.isDigit
  if ip.isEmpty then none
  else if 1 < ip.length && ip.getD 0 ' ' == '0' then none
  else
    match parseFrac (sl.2.dropWhile Char.isDigit) with
    | none => none
    | some (fp, r2) =>
      match parseExp r2 with
      | none => none
      | some (ep, r3) => some (sl.1 ++ ip ++ fp ++ ep, r3)

mutual

/-- A JSON value (fuel-indexed recursive-descent model of `json.loads`,
including the `NaN`/`Infinity` constants CPython accepts). -/
def parseJValue : Nat → List Char → Option (Json × List Char)
  | 0, _ => none
  | fuel + 1, l =>
    match skipWs l with
    | 'n' :: 'u' :: 'l' :: 'l' :: rest => some (Json.null, rest)
    | 't' :: 'r' :: 'u' :: 'e' :: rest => some (Json.bool true, rest)
    | 'f' :: 'a' :: 'l' :: 's' :: 'e' :: rest => some (Json.bool false, rest)
    | 'N' :: 'a' :: 'N' :: rest => some (Json.num "NaN", rest)
    | 'I' :: 'n' :: 'f' :: 'i' :: 'n' :: 'i' :: 't' :: 'y' :: rest =>
      some (Json.num "Infinity", rest)
    | '-' :: 'I' :: 'n' :: 'f' :: 'i' :: 'n' :: 'i' :: 't' :: 'y' :: rest =>
      some (Json.num "-Infinity", rest)
    | '"' :: rest => (parseJStrAux rest).map (fun r => (Json.str (String.mk r.1), r.2))
    | '[' :: rest =>
      (match skipWs rest with
       | ']' :: r2 => some (Json.arr [], r2)
       | r2 => (parseJItems fuel r2).map (fun r => (Json.arr r.1, r.2)))
    | '\x7b' :: rest =>
      (match skipWs rest with
       | '\x7d' :: r2 => some (Json.obj [], r2)
       | r2 => (parseJFields fuel r2).map (fun r => (Json.obj r.1, r.2)))
    | l2 => (parseJNum l2).map (fun r => (Json.num (String.mk r.1), r.2))

/-- Comma-separated array items up to `]`. -/
def parseJItems : Nat → List Char → Option (List Json × List Char)
  | 0, _ => none
  | fuel + 1, l =>
    match parseJValue fuel l with
    | none => none
    | some (v, r1) =>
      match skipWs r1 with
      | ',' :: r2 => (parseJItems fuel r2).map (fun r => (v :: r.1, r.2))
      | ']' :: r2 => some ([v], r2)
      | _ => none

/-- Comma-separated `"key": value` fields up to the closing brace. -/
def parseJFields : Nat → List Char → Option (List (String × Json) × List Char)
  | 0, _ => none
  | fuel + 1, l =>
    match skipWs l with
    | '"' :: r0 =>
      (match parseJStrAux r0 with
       | none => none
       | some (key, r1) =>
         match skipWs r1 with
         | ':' :: r2 =>
           (match parseJValue fuel r2 with
            | none => none
            | some (v, r3) =>
              match skipWs r3 with
              | ',' :: r4 => (parseJFields fuel r4).map (fun r => ((String.mk key, v) :: r.1, r.2))
              | '\x7d' :: r4 => some ([(String.mk key, v)], r4)
              | _ => none)
         | _ => none)
    | _ => none

end

/-- `json.loads(s)`: a single value, with nothing but whitespace after it. -/
def jsonLoads (s : String) : Option Json :=
  match parseJValue (2 * s.length + 2) s.data with
  | some (j, rest) => if skipWs rest = [] then some j else none
  | none => none

/-- Did `json.loads` produce a dict (`isinstance(data, dict)`)? -/
def isObjDecode : Option Json → Bool
  | some (Json.obj _) => true
  | _ => false

/-- The fallback dict built from the raw text:
`{"assistant_answer": text.strip(), "suggested_fill_en": "", "warnings": []}`. -/
def parseFallback (text : String) : List (String × Json) :=
  [("assistant_answer", Json.str (pyStrip text)),
   ("suggested_fill_en", Json.str ""),
   ("warnings", Json.arr [])]

/-- `_parse_model_json(text)`: a decoded dict is returned as is; a decode
error or a decoded non-dict value falls back to the raw-text dict. -/
def parse_model_json (text : String) : List (String × Json) :=
  match jsonLoads text with
  | some (Json.obj fields) => fields
  | _ => parseFallback text

/-! ## `_load_pdf_reader` (main.py lines 159-168) -/

/-- The two `HTTPException`s `_load_pdf_reader` raises: 404 ("Official PDF
not found.") and 400 ("Official PDF is encrypted and cannot be read."). -/
inductive PdfLoadError where
  | notFound : PdfLoadError
  | badInput : PdfLoadError
deriving DecidableEq

/-- Abstract state of the source document: whether the file exists at
`OFFICIAL_PDF_PATH`, whether the opened reader reports encryption, and
whether a blank-password `reader.decrypt("")` succeeds without raising. -/
structure PdfSource where
  fileExists : Bool
  isEncrypted : Bool
  blankDecryptOk : Bool
deriving DecidableEq

/-- `_load_pdf_reader()`: 404 when the file is missing; if the reader reports
encryption, attempt a blank-password decrypt, any exception becoming a 400;
otherwise the reader over the document is returned. -/
def load_pdf_reader (src : PdfSource) : Except PdfLoadError PdfSource :=
  if !src.fileExists then Except.error PdfLoadError.notFound
  else if src.isEncrypted then
    if src.blankDecryptOk then Except.ok src else Except.error PdfLoadError.badInput
  else Except.ok src

/-! ## `_stamp_pdf` drawing model (main.py lines 207-265)

The field fill is shared with `_fill_pdf` and left abstract (base pages);
the embedding models the overlay the `canvas` receives and the final merge
loop. -/

/-- `PdfStampItem` request model (`page` is a Python int, possibly negative). -/
structure PdfStampItem where
  page : ℤ
  x_px : ℚ
  y_px : ℚ
  height_px : ℚ
  text : String
deriving DecidableEq

/-- One entry of the `pages` request list: a dict that may or may not carry
`width`/`height` keys. -/
structure PageMeta where
  width : Option ℚ
  height : Option ℚ
deriving DecidableEq

/-- `float(page_meta.get(key, 1.0)) or 1.0`: a missing key defaults to 1.0,
and a zero value is coerced to 1.0 by Python `or` on a falsy float. -/
def metaDim (v : Option ℚ) : ℚ :=
  let w := v.getD 1
  if w = 0 then 1 else w

/-- `pages[page_index] if page_index < len(pages) else {"width": 1.0, "height": 1.0}`. -/
def pageMetaAt (pages : List PageMeta) (i : Nat) : PageMeta :=
  (pages.get? i).getD ⟨some 1, some 1⟩

/-- `x_pt = (item.x_px / page_w_px) * page_w_pt`. -/
def stamp_x_pt (x_px page_w_px page_w_pt : ℚ) : ℚ := x_px / page_w_px * page_w_pt

/-- `baseline_px = item.y_px + item.height_px * 0.75` and
`y_pt = page_h_pt - (baseline_px / page_h_px) * page_h_pt`. -/
def stamp_y_pt (y_px height_px page_h_px page_h_pt : ℚ) : ℚ :=
  page_h_pt - (y_px + height_px * 0.75) / page_h_px * page_h_pt

/-- `font_size = max(7.0, min(12.0, (item.height_px / page_h_px) * page_h_pt * 0.8))`. -/
def stamp_font_size (height_px page_h_px page_h_pt : ℚ) : ℚ :=
  max 7 (min 12 (height_px / page_h_px * page_h_pt * 0.8))

/-- One `c.setFont`/`c.drawString` pair recorded on the overlay, tagged with
the stamp item that produced it. -/
structure DrawOp where
  item : PdfStampItem
  x_pt : ℚ
  y_pt : ℚ
  font_size : ℚ
  text : String
deriving DecidableEq

/-- The body of the `for item in stamps` loop for the overlay page
`page_index`, whose media box is `page_w_pt × page_h_pt` points: items of
other pages are skipped (`continue`), as are items whose stripped text is
empty; otherwise the `setFont`/`drawString` operation is emitted. -/
def drawOpFor (pages : List PageMeta) (page_w_pt page_h_pt : ℚ) (page_index : Nat)
    (item : PdfStampItem) : Option DrawOp :=
  if item.page ≠ (page_index : ℤ) then none
  else if pyStrip item.text = "" then none
  else some
    { item := item
      x_pt := stamp_x_pt item.x_px (metaDim (pageMetaAt pages page_index).width) page_w_pt
      y_pt := stamp_y_pt item.y_px item.height_px
        (metaDim (pageMetaAt pages page_index).height) page_h_pt
      font_size := stamp_font_size item.height_px
        (metaDim (pageMetaAt pages page_index).height) page_h_pt
      text := pyStrip item.text }

/-- All operations the `for item in stamps` loop draws on one overlay page. -/
def drawOpsForPage (pages : List PageMeta) (stamps : List PdfStampItem)
    (page_w_pt page_h_pt : ℚ) (page_index : Nat) : List DrawOp :=
  stamps.filterMap (drawOpFor pages page_w_pt page_h_pt page_index)

/-- The overlay document: one list of draw operations per source page, with
`mediaBoxes` listing each page's point dimensions; `i` is the index of the
first listed page (`_stamp_pdf` iterates from 0). -/
def overlayPages (pages : List PageMeta) (stamps : List PdfStampItem) :
    List (ℚ × ℚ) → Nat → List (List DrawOp)
  | [], _ => []
  | wh :: rest, i =>
    drawOpsForPage pages stamps wh.1 wh.2 i :: overlayPages pages stamps rest (i + 1)

/-- The merge loop `for i, page in enumerate(writer.pages)` applied to the
field-filled base pages: each output page keeps its base content and gains
the overlay page's operations when `i < len(overlay_reader.pages)`. -/
def mergedPages {α : Type} : List α → Nat → List (List DrawOp) → List (α × List DrawOp)
  | [], _, _ => []
  | b :: bs, i, ov =>
    (b, if i < ov.length then ov.getD i [] else []) :: mergedPages bs (i + 1) ov

/-! ## Spec-side coordinate formulas (for the refinement claim C3) -/

/-- `x_pt` as the spec words it: `(x_px / declared_page_width_px) × page_width_pt`. -/
def spec_x_pt (x_px w_px w_pt : ℚ) : ℚ := (x_px / w_px) * w_pt

/-- `y_pt` as the spec words it:
`page_height_pt − ((y_px + 0.75 × height_px) / declared_page_height_px) × page_height_pt`. -/
def spec_y_pt (y_px height_px h_px h_pt : ℚ) : ℚ :=
  h_pt - ((y_px + 0.75 * height_px) / h_px) * h_pt

/-- `clamp(v, lo, hi)`. -/
def specClamp (v lo hi : ℚ) : ℚ := min hi (max lo v)

/-- Font size as the spec words it:
`clamp(0.8 × (height_px / declared_page_height_px) × page_height_pt, 7, 12)`. -/
def spec_font_size (height_px h_px h_pt : ℚ) : ℚ :=
  specClamp (0.8 * (height_px / h_px * h_pt)) 7 12

/-- The stamp of the spec's concrete scaling example. -/
def c3Item : PdfStampItem := ⟨0, 100, 50, 20, "X"⟩

/-- The declared 200×200-pixel page of the spec's concrete scaling example. -/
def c3Pages : List PageMeta := [⟨some 200, some 200⟩]

/-- The draw operation the concrete scaling example produces. -/
def c3Op : DrawOp :=
  { item := c3Item
    x_pt := stamp_x_pt 100 (metaDim (pageMetaAt c3Pages 0).width) 72
    y_pt := stamp_y_pt 50 20 (metaDim (pageMetaAt c3Pages 0).height) 72
    font_size := stamp_font_size 20 (metaDim (pageMetaAt c3Pages 0).height) 72
    text := "X" }

/-- A blank stamp (whitespace-only text), for the C8 witness. -/
def c8Stamp : PdfStampItem := ⟨0, 1, 1, 1, "  "⟩

/-! ## Helper lemmas for the stamp model -/

lemma mem_drawOpsForPage_inv {pages : List PageMeta} {stamps : List PdfStampItem}
    {w_pt h_pt : ℚ} {i : Nat} {op : DrawOp} (h : op ∈ drawOpsForPage pages stamps w_pt h_pt i) :
    op.item ∈ stamps ∧ op.item.page = (i : ℤ) ∧ pyStrip op.item.text ≠ "" ∧
    op.x_pt = stamp_x_pt op.item.x_px (metaDim (pageMetaAt pages i).width) w_pt ∧
    op.y_pt = stamp_y_pt op.item.y_px op.item.height_px (metaDim (pageMetaAt pages i).height) h_pt ∧
    op.font_size = stamp_font_size op.item.height_px (metaDim (pageMetaAt pages i).height) h_pt := by
  simp only [drawOpsForPage, List.mem_filterMap] at h
  obtain ⟨a, ha, hf⟩ := h
  rw [drawOpFor] at hf
  by_cases h1 : a.page = (i : ℤ)
  · rw [if_neg (not_not.mpr h1)] at hf
    by_cases h2 : pyStrip a.text = ""
    · rw [if_pos h2] at hf
      exact absurd hf (by simp)
    · rw [if_neg h2] at hf
      obtain rfl := Option.some.inj hf |>.symm
      exact ⟨ha, h1, h2, rfl, rfl, rfl⟩
  · rw [if_pos h1] at hf
    exact absurd hf (by simp)

lemma drawOpFor_blank {pages : List PageMeta} {w_pt h_pt : ℚ} {i : Nat}
    {s : PdfStampItem} (hb : pyStrip s.text = "") :
    drawOpFor pages w_pt h_pt i s = none := by
  rw [drawOpFor]
  by_cases h1 : s.page = (i : ℤ)
  · rw [if_neg (not_not.mpr h1), if_pos hb]
  · rw [if_pos h1]

lemma drawOpsForPage_filter_blank {pages : List PageMeta} {w_pt h_pt : ℚ} {i : Nat}
    {s : PdfStampItem} (hb : pyStrip s.text = "") (stamps : List PdfStampItem) :
    drawOpsForPage pages (stamps.filter (fun t => t != s)) w_pt h_pt i =
      drawOpsForPage pages stamps w_pt h_pt i := by
  induction stamps with
  | nil => rfl
  | cons a rest ih =>
    simp only [drawOpsForPage] at ih ⊢
    rw [List.filter_cons, List.filterMap_cons]
    by_cases ha : a = s
    · subst ha
      simp only [bne_self_eq_false, Bool.false_eq_true, if_false]
      rw [drawOpFor_blank hb]
      exact ih
    · simp only [bne_iff_ne, ne_eq, ha, not_false_eq_true, if_true]
      rw [List.filterMap_cons]
      cases drawOpFor pages w_pt h_pt i a <;> simp only [ih]

lemma overlay_op_page_bounds {pages : List PageMeta} {stamps : List PdfStampItem} :
    ∀ (mbs : List (ℚ × ℚ)) (i : Nat), ∀ pg ∈ overlayPages pages stamps mbs i,
      ∀ op ∈ pg, (i : ℤ) ≤ op.item.page ∧ op.item.page < (i : ℤ) + mbs.length := by
  intro mbs
  induction mbs with
  | nil => intro i pg hpg; simp [overlayPages] at hpg
  | cons wh rest ih =>
    intro i pg hpg op hop
    simp only [overlayPages, List.mem_cons] at hpg
    rcases hpg with rfl | hpg
    · have := (mem_drawOpsForPage_inv hop).2.1
      simp only [List.length_cons]
      push_cast
      omega
    · have := ih (i + 1) pg hpg op hop
      simp only [List.length_cons]
      push_cast at this ⊢
      omega

lemma overlay_op_not_blank {pages : List PageMeta} {stamps : List PdfStampItem} :
    ∀ (mbs : List (ℚ × ℚ)) (i : Nat), ∀ pg ∈ overlayPages pages stamps mbs i,
      ∀ op ∈ pg, pyStrip op.item.text ≠ "" := by
  intro mbs
  induction mbs with
  | nil => intro i pg hpg; simp [overlayPages] at hpg
  | cons wh rest ih =>
    intro i pg hpg op hop
    simp only [overlayPages, List.mem_cons] at hpg
    rcases hpg with rfl | hpg
    · exact (mem_drawOpsForPage_inv hop).2.2.1
    · exact ih (i + 1) pg hpg op hop

lemma mergedPages_getElem {α : Type} :
    ∀ (bs : List α) (i : Nat) (ov : List (List DrawOp)) (j : Nat),
      (mergedPages bs i ov)[j]? =
        bs[j]?.map (fun b => (b, if i + j < ov.length then ov.getD (i + j) [] else [])) := by
  intro bs
  induction bs with
  | nil => intro i ov j; simp [mergedPages]
  | cons b bs ih =>
    intro i ov j
    cases j with
    | zero => simp [mergedPages]
    | succ j =>
      simp only [mergedPages, List.getElem?_cons_succ, ih (i + 1) ov j]
      have : i + 1 + j = i + (j + 1) := by omega
      rw [this]

/-! ## Claim theorems for the PDF components -/

/-- C3: every stamp drawn on a page with declared pixel dimensions and actual
point dimensions has position and font size given exactly by the spec's
formulas `x_pt = (x_px / w_px) × w_pt`,
`y_pt = h_pt − ((y_px + 0.75 × height_px) / h_px) × h_pt` and
`font size = clamp(0.8 × (height_px / h_px) × h_pt, 7, 12)`; in particular
`x_px = 100` on a declared 200-pixel-wide page mapped onto a 72-point-wide
page yields `x_pt = 36`. -/
theorem stamp_coordinate_formulas :
    (∀ (pages : List PageMeta) (stamps : List PdfStampItem) (w_pt h_pt : ℚ) (i : Nat)
        (op : DrawOp), op ∈ drawOpsForPage pages stamps w_pt h_pt i →
        op.x_pt = spec_x_pt op.item.x_px (metaDim (pageMetaAt pages i).width) w_pt
        ∧ op.y_pt = spec_y_pt op.item.y_px op.item.height_px
            (metaDim (pageMetaAt pages i).height) h_pt
        ∧ op.font_size = spec_font_size op.item.height_px
            (metaDim (pageMetaAt pages i).height) h_pt)
    ∧ stamp_x_pt 100 200 72 = 36 := by
  constructor
  · intro pages stamps w_pt h_pt i op hop
    obtain ⟨-, -, -, hx, hy, hf⟩ := mem_drawOpsForPage_inv hop
    refine ⟨hx.trans rfl, hy.trans ?_, hf.trans ?_⟩
    · rw [stamp_y_pt, spec_y_pt]; ring
    · rw [stamp_font_size, spec_font_size, specClamp]
      rw [show op.item.height_px / metaDim (pageMetaAt pages i).height * h_pt * 0.8
            = 0.8 * (op.item.height_px / metaDim (pageMetaAt pages i).height * h_pt) from by ring]
      rw [max_min_distrib_left, show max (7:ℚ) 12 = 12 from by norm_num]
  · rw [stamp_x_pt]; norm_num

/-- Witness for C3: the spec's concrete example stamp is drawn and satisfies
the formulas. -/
theorem stamp_coordinate_formulas_witness :
    c3Op.x_pt = spec_x_pt c3Op.item.x_px (metaDim (pageMetaAt c3Pages 0).width) 72
    ∧ c3Op.y_pt = spec_y_pt c3Op.item.y_px c3Op.item.height_px
        (metaDim (pageMetaAt c3Pages 0).height) 72
    ∧ c3Op.font_size = spec_font_size c3Op.item.height_px
        (metaDim (pageMetaAt c3Pages 0).height) 72 :=
  stamp_coordinate_formulas.1 c3Pages [c3Item] 72 72 0 c3Op (List.Mem.head _)

/-- C5: loading the source document fails with NotFound iff the source PDF
file is missing, fails with BadInput iff the file exists, the document
reports encryption and the blank-password decrypt does not succeed, and
otherwise returns a reader over the document. -/
theorem load_pdf_reader_error_taxonomy :
    ∀ src : PdfSource,
      (load_pdf_reader src = Except.error PdfLoadError.notFound ↔ src.fileExists = false)
      ∧ (load_pdf_reader src = Except.error PdfLoadError.badInput ↔
          src.fileExists = true ∧ src.isEncrypted = true ∧ src.blankDecryptOk = false)
      ∧ ((∃ r, load_pdf_reader src = Except.ok r) ↔
          src.fileExists = true ∧ (src.isEncrypted = true → src.blankDecryptOk = true)) := by
  rintro ⟨e, enc, ok⟩
  cases e <;> cases enc <;> cases ok <;> simp [load_pdf_reader]

/-- C7: a stamp whose page index is negative or at least the page count is
never drawn, and every output page beyond the overlay's page count keeps
exactly its field-fill content. -/
theorem stamp_invalid_page_skipped :
    (∀ (pages : List PageMeta) (stamps : List PdfStampItem) (mbs : List (ℚ × ℚ))
        (s : PdfStampItem), s ∈ stamps → (s.page < 0 ∨ (mbs.length : ℤ) ≤ s.page) →
        ∀ pg ∈ overlayPages pages stamps mbs 0, ∀ op ∈ pg, op.item ≠ s)
    ∧ (∀ (α : Type) (basePages : List α) (ov : List (List DrawOp)) (i : Nat),
        ov.length ≤ i →
        (mergedPages basePages 0 ov)[i]? = basePages[i]?.map (fun b => (b, ([] : List DrawOp)))) := by
  constructor
  · intro pages stamps mbs s hs hbad pg hpg op hop heq
    have hb := overlay_op_page_bounds mbs 0 pg hpg op hop
    rw [heq] at hb
    rcases hbad with h | h <;> omega
  · intro α basePages ov i hlen
    rw [mergedPages_getElem]
    have h2 : ¬ i < ov.length := by omega
    simp [h2]

/-- Witness for C7: a stamp with page index 5 against a one-page document is
never drawn, and with an empty overlay the single output page keeps its
field-fill content. -/
theorem stamp_invalid_page_skipped_witness :
    (∀ pg ∈ overlayPages c3Pages [⟨5, 1, 1, 1, "Y"⟩] [(72, 72)] 0, ∀ op ∈ pg,
      op.item ≠ (⟨5, 1, 1, 1, "Y"⟩ : PdfStampItem))
    ∧ (mergedPages ([7] : List ℤ) 0 ([] : List (List DrawOp)))[0]? =
        some ((7 : ℤ), ([] : List DrawOp)) := by
  constructor
  · exact stamp_invalid_page_skipped.1 c3Pages _ _ _ (List.Mem.head _) (by right; decide)
  · rw [stamp_invalid_page_skipped.2 ℤ ([7] : List ℤ) [] 0 (by decide)]
    rfl

/-- C8: a stamp whose text is empty or whitespace-only produces no draw
operation: no overlay operation is tagged with it, removing it leaves every
overlay page unchanged, and if all stamps are blank every overlay page is
empty, so the merged output is the field fill alone. -/
theorem blank_stamp_no_draw :
    ∀ (pages : List PageMeta) (stamps : List PdfStampItem) (mbs : List (ℚ × ℚ))
      (s : PdfStampItem), pyStrip s.text = "" →
      (∀ pg ∈ overlayPages pages stamps mbs 0, ∀ op ∈ pg, op.item ≠ s)
      ∧ overlayPages pages (stamps.filter (fun t => t != s)) mbs 0 =
          overlayPages pages stamps mbs 0
      ∧ ((∀ t ∈ stamps, pyStrip t.text = "") →
          ∀ pg ∈ overlayPages pages stamps mbs 0, pg = []) := by
  intro pages stamps mbs s hb
  refine ⟨?_, ?_, ?_⟩
  · intro pg hpg op hop heq
    exact overlay_op_not_blank mbs 0 pg hpg op hop (heq ▸ hb)
  · have : ∀ (mbs' : List (ℚ × ℚ)) (i : Nat),
        overlayPages pages (stamps.filter (fun t => t != s)) mbs' i =
          overlayPages pages stamps mbs' i := by
      intro mbs'
      induction mbs' with
      | nil => intro i; rfl
      | cons wh rest ih =>
        intro i
        rw [overlayPages, overlayPages, drawOpsForPage_filter_blank hb, ih]
    exact this mbs 0
  · intro hall
    have : ∀ (mbs' : List (ℚ × ℚ)) (i : Nat),
        ∀ pg ∈ overlayPages pages stamps mbs' i, pg = [] := by
      intro mbs'
      induction mbs' with
      | nil => intro i pg hpg; simp [overlayPages] at hpg
      | cons wh rest ih =>
        intro i pg hpg
        simp only [overlayPages, List.mem_cons] at hpg
        rcases hpg with rfl | hpg
        · rw [drawOpsForPage, List.filterMap_eq_nil_iff]
          intro a ha
          exact drawOpFor_blank (hall a ha)
        · exact ih (i + 1) pg hpg
    exact this mbs 0

/-- Witness for C8: a whitespace-only stamp on a one-page document is never
drawn, removing it changes nothing, and alone it leaves every overlay page
empty. -/
theorem blank_stamp_no_draw_witness :
    (∀ pg ∈ overlayPages c3Pages [c8Stamp] [(72, 72)] 0, ∀ op ∈ pg, op.item ≠ c8Stamp)
    ∧ overlayPages c3Pages ([c8Stamp].filter (fun t => t != c8Stamp)) [(72, 72)] 0 =
        overlayPages c3Pages [c8Stamp] [(72, 72)] 0
    ∧ ((∀ t ∈ [c8Stamp], pyStrip t.text = "") →
        ∀ pg ∈ overlayPages c3Pages [c8Stamp] [(72, 72)] 0, pg = []) :=
  blank_stamp_no_draw c3Pages [c8Stamp] [(72, 72)] c8Stamp (by decide)

/-- C9: the stamp coordinate computation is total: a page index beyond the
declared page metadata defaults to a 1×1-pixel page, a missing or zero
declared dimension is coerced to 1, and the divisors are never zero. -/
theorem stamp_dimension_totality :
    ∀ (pages : List PageMeta) (i : Nat),
      metaDim (pageMetaAt pages i).width ≠ 0
      ∧ metaDim (pageMetaAt pages i).height ≠ 0
      ∧ (pages.length ≤ i → pageMetaAt pages i = ⟨some 1, some 1⟩)
      ∧ (∀ w : Option ℚ, w = none ∨ w = some 0 → metaDim w = 1) := by
  have hnz : ∀ v : Option ℚ, metaDim v ≠ 0 := by
    intro v
    rw [metaDim]
    by_cases h : v.getD 1 = 0
    · simp only [h, if_true]
      exact one_ne_zero
    · simp only [h, if_false]
      exact h
  intro pages i
  refine ⟨hnz _, hnz _, ?_, ?_⟩
  · intro hlen
    rw [pageMetaAt, List.get?_eq_none.mpr hlen]
    rfl
  · rintro w (rfl | rfl) <;> simp [metaDim]

/-- Witness for C9: with no declared page metadata, page 0 defaults to the
1×1-pixel page and both coerced dimensions are nonzero. -/
theorem stamp_dimension_totality_witness :
    metaDim (pageMetaAt [] 0).width ≠ 0
    ∧ pageMetaAt [] 0 = ⟨some 1, some 1⟩
    ∧ metaDim none = 1 ∧ metaDim (some 0) = 1 :=
  ⟨(stamp_dimension_totality [] 0).1,
   (stamp_dimension_totality [] 0).2.2.1 (by decide),
   (stamp_dimension_totality [] 0).2.2.2 none (Or.inl rfl),
   (stamp_dimension_totality [] 0).2.2.2 (some 0) (Or.inr rfl)⟩

/-! ## Helper lemmas for the rate limiter -/

lemma evictOld_eq_filter (now : ℚ) :
    ∀ q : List ℚ, q.Pairwise (· ≤ ·) →
      evictOld now q = q.filter (fun t => decide (now - t ≤ 60)) := by
  intro q
  induction q with
  | nil => intro _; rfl
  | cons a rest ih =>
    intro hpw
    rw [List.pairwise_cons] at hpw
    obtain ⟨ha, hrest⟩ := hpw
    rw [evictOld, List.dropWhile_cons, List.filter_cons]
    by_cases h : now - a > 60
    · rw [if_pos (by simpa using h), if_neg (by simp; linarith)]
      exact ih hrest
    · rw [if_neg (by simpa using h), if_pos (by simp; linarith)]
      rw [List.filter_eq_self.mpr]
      intro b hb
      simp only [decide_eq_true_eq]
      have := ha b hb
      linarith

lemma evictOld_id (now : ℚ) (q : List ℚ) (h : ∀ b ∈ q, now - b ≤ 60) :
    evictOld now q = q := by
  cases q with
  | nil => rfl
  | cons a rest =>
    rw [evictOld, List.dropWhile_cons, if_neg]
    simp only [decide_eq_true_eq, not_lt]
    exact h a (List.mem_cons_self a rest)

lemma evictOld_sublist (now : ℚ) (q : List ℚ) : (evictOld now q).Sublist q :=
  List.dropWhile_sublist _

lemma rateRun_append_one (ts : List ℚ) (t : ℚ) :
    rateRun (ts ++ [t]) = (rate_limited t (rateRun ts)).2 := by
  rw [rateRun, List.foldl_append, List.foldl_cons, List.foldl_nil]
  rfl

lemma rateRun_all_kept :
    ∀ ts : List ℚ, ts.length ≤ 10 → (∀ a ∈ ts, ∀ b ∈ ts, a - b ≤ 60) → rateRun ts = ts := by
  intro ts
  induction ts using List.reverseRecOn with
  | nil => intro _ _; rfl
  | append_singleton ts t ih =>
    intro hlen hpair
    simp only [List.length_append, List.length_cons, List.length_nil] at hlen
    have hts : rateRun ts = ts := by
      refine ih (by omega) ?_
      intro a ha b hb
      exact hpair a (List.mem_append_left _ ha) b (List.mem_append_left _ hb)
    have hmt : t ∈ ts ++ [t] := List.mem_append_right _ (List.mem_cons_self t [])
    rw [rateRun_append_one, hts, rate_limited,
      evictOld_id t ts (fun b hb => hpair t hmt b (List.mem_append_left _ hb))]
    rw [if_neg (by simp [RATE_LIMIT_PER_MIN]; omega)]

lemma rate_limited_invariant (now : ℚ) (q : List ℚ) (hpw : q.Pairwise (· ≤ ·))
    (hlen : q.length ≤ 10) (hub : ∀ x ∈ q, x ≤ now) :
    (rate_limited now q).2.Pairwise (· ≤ ·) ∧ (rate_limited now q).2.length ≤ 10 ∧
      (∀ x ∈ (rate_limited now q).2, x ∈ q ∨ x = now) ∧
      (∀ x ∈ (rate_limited now q).2, now - x ≤ 60) := by
  have hsub := evictOld_sublist now q
  have hpw1 : (evictOld now q).Pairwise (· ≤ ·) := hpw.sublist hsub
  have hlen1 : (evictOld now q).length ≤ q.length := hsub.length_le
  have hwin : ∀ x ∈ evictOld now q, now - x ≤ 60 := by
    intro x hx
    rw [evictOld_eq_filter now q hpw, List.mem_filter] at hx
    simpa using hx.2
  rw [rate_limited]
  by_cases hlim : RATE_LIMIT_PER_MIN ≤ (evictOld now q).length
  · rw [if_pos hlim]
    simp only [Prod.snd]
    exact ⟨hpw1, by simp only [RATE_LIMIT_PER_MIN] at hlim; omega,
      fun x hx => Or.inl (hsub.mem hx), hwin⟩
  · rw [if_neg hlim]
    simp only [Prod.snd]
    simp only [RATE_LIMIT_PER_MIN] at hlim
    refine ⟨?_, ?_, ?_, ?_⟩
    · rw [List.pairwise_append]
      exact ⟨hpw1, List.pairwise_singleton _ _,
        fun a ha b hb => by
          rw [List.mem_singleton] at hb
          subst hb
          exact hub a (hsub.mem ha)⟩
    · simp only [List.length_append, List.length_cons, List.length_nil]
      omega
    · intro x hx
      rw [List.mem_append, List.mem_singleton] at hx
      rcases hx with hx | hx
      · exact Or.inl (hsub.mem hx)
      · exact Or.inr hx
    · intro x hx
      rw [List.mem_append, List.mem_singleton] at hx
      rcases hx with hx | hx
      · exact hwin x hx
      · subst hx; linarith

lemma rateRun_invariant :
    ∀ ts : List ℚ, ts.Pairwise (· ≤ ·) →
      (rateRun ts).Pairwise (· ≤ ·) ∧ (rateRun ts).length ≤ 10 ∧ ∀ x ∈ rateRun ts, x ∈ ts := by
  intro ts
  induction ts using List.reverseRecOn with
  | nil => intro _; exact ⟨List.Pairwise.nil, by simp [rateRun], by simp [rateRun]⟩
  | append_singleton ts t ih =>
    intro hpw
    rw [List.pairwise_append] at hpw
    obtain ⟨hts, -, hcross⟩ := hpw
    obtain ⟨hq_pw, hq_len, hq_sub⟩ := ih hts
    have hub : ∀ x ∈ rateRun ts, x ≤ t :=
      fun x hx => hcross x (hq_sub x hx) t (List.mem_cons_self t [])
    obtain ⟨h1, h2, h3, -⟩ := rate_limited_invariant t (rateRun ts) hq_pw hq_len hub
    rw [rateRun_append_one]
    refine ⟨h1, h2, ?_⟩
    intro x hx
    rcases h3 x hx with h | h
    · exact List.mem_append_left _ (hq_sub x h)
    · subst h
      exact List.mem_append_right _ (List.mem_cons_self x [])

/-- C1: each rate-limiter call first evicts the timestamps older than
`now - 60` (on a sorted record the front eviction removes exactly those),
returns limited without recording when at least 10 remain, and otherwise
appends `now`; consequently a client issuing 10 requests within 60 seconds is
limited on an 11th inside the window, and accepted again on a request more
than 60 seconds after the first. -/
theorem rate_limiter_sliding_window :
    (∀ (now : ℚ) (q : List ℚ), q.Pairwise (· ≤ ·) →
      evictOld now q = q.filter (fun t => decide (now - t ≤ 60))
      ∧ (RATE_LIMIT_PER_MIN ≤ (evictOld now q).length →
          rate_limited now q = (true, evictOld now q))
      ∧ ((evictOld now q).length < RATE_LIMIT_PER_MIN →
          rate_limited now q = (false, evictOld now q ++ [now])))
    ∧ (∀ (t1 : ℚ) (ts : List ℚ) (t11 tnew : ℚ),
        (t1 :: ts).length = 10 →
        (∀ a ∈ t1 :: ts, ∀ b ∈ t1 :: ts, a - b ≤ 60) →
        t11 - t1 ≤ 60 →
        tnew - t1 > 60 →
        (rate_limited t11 (rateRun (t1 :: ts))).1 = true
        ∧ (rate_limited tnew (rate_limited t11 (rateRun (t1 :: ts))).2).1 = false) := by
  constructor
  · intro now q hpw
    refine ⟨evictOld_eq_filter now q hpw, ?_, ?_⟩
    · intro h; rw [rate_limited, if_pos h]
    · intro h; rw [rate_limited, if_neg (by omega)]
  · intro t1 ts t11 tnew hlen hpair h11 hnew
    simp only [List.length_cons] at hlen
    have hrun : rateRun (t1 :: ts) = t1 :: ts :=
      rateRun_all_kept _ (by simp only [List.length_cons]; omega) hpair
    have hq1 : evictOld t11 (t1 :: ts) = t1 :: ts := by
      rw [evictOld, List.dropWhile_cons, if_neg (by simp only [decide_eq_true_eq]; linarith)]
    have hlim : rate_limited t11 (rateRun (t1 :: ts)) = (true, t1 :: ts) := by
      rw [hrun, rate_limited, hq1, if_pos]
      simp only [RATE_LIMIT_PER_MIN, List.length_cons]
      omega
    refine ⟨by rw [hlim], ?_⟩
    rw [hlim]
    show (rate_limited tnew (t1 :: ts)).1 = false
    have hev : evictOld tnew (t1 :: ts) = evictOld tnew ts := by
      rw [evictOld, List.dropWhile_cons, if_pos (by simp only [decide_eq_true_eq]; linarith)]
      rfl
    have hlen2 : (evictOld tnew (t1 :: ts)).length < RATE_LIMIT_PER_MIN := by
      rw [hev]
      have := (evictOld_sublist tnew ts).length_le
      simp only [RATE_LIMIT_PER_MIN]
      omega
    rw [rate_limited, if_neg (by omega)]

/-- C6: after every rate-limiter call at time `now` (any nondecreasing call
history), every timestamp stored in the client's record is at least
`now - 60`, and the record never holds more than 10 timestamps. -/
theorem rate_record_invariant :
    ∀ (ts : List ℚ) (now : ℚ), (ts ++ [now]).Pairwise (· ≤ ·) →
      (∀ x ∈ rateRun (ts ++ [now]), now - 60 ≤ x) ∧ (rateRun (ts ++ [now])).length ≤ 10 := by
  intro ts now hpw
  have hlen := (rateRun_invariant (ts ++ [now]) hpw).2.1
  refine ⟨?_, hlen⟩
  rw [List.pairwise_append] at hpw
  obtain ⟨hts, -, hcross⟩ := hpw
  obtain ⟨hq_pw, hq_len, hq_sub⟩ := rateRun_invariant ts hts
  have hub : ∀ x ∈ rateRun ts, x ≤ now :=
    fun x hx => hcross x (hq_sub x hx) now (List.mem_cons_self now [])
  obtain ⟨-, -, -, hwin⟩ := rate_limited_invariant now (rateRun ts) hq_pw hq_len hub
  rw [rateRun_append_one]
  intro x hx
  have := hwin x hx
  linarith

lemma c1_len : (((0:ℚ)) :: List.replicate 9 (0:ℚ)).length = 10 := by simp

lemma c1_pair :
    ∀ a ∈ ((0:ℚ) :: List.replicate 9 (0:ℚ)), ∀ b ∈ ((0:ℚ) :: List.replicate 9 (0:ℚ)),
      a - b ≤ 60 := by
  intro a ha b hb
  have ha0 : a = 0 := by
    rcases List.mem_cons.mp ha with h | h
    · exact h
    · exact List.eq_of_mem_replicate h
  have hb0 : b = 0 := by
    rcases List.mem_cons.mp hb with h | h
    · exact h
    · exact List.eq_of_mem_replicate h
  subst ha0; subst hb0
  norm_num

lemma c1_le : (30:ℚ) - 0 ≤ 60 := by norm_num

lemma c1_gt : (61:ℚ) - 0 > 60 := by norm_num

lemma c6_pw : ([(0:ℚ)] ++ [(61:ℚ)]).Pairwise (· ≤ ·) := by
  show ([0, 61] : List ℚ).Pairwise (· ≤ ·)
  refine List.Pairwise.cons ?_ (List.pairwise_singleton _ _)
  intro b hb
  rw [List.mem_singleton] at hb
  subst hb
  norm_num

/-- Witness for C1: ten requests at time 0, an 11th at 30 limited, one at 61
accepted. -/
theorem rate_limiter_sliding_window_witness :
    (rate_limited 30 (rateRun ((0:ℚ) :: List.replicate 9 (0:ℚ)))).1 = true
    ∧ (rate_limited 61 (rate_limited 30 (rateRun ((0:ℚ) :: List.replicate 9 (0:ℚ)))).2).1 = false
    ∧ evictOld 61 [(0:ℚ)] = [(0:ℚ)].filter (fun t => decide ((61:ℚ) - t ≤ 60)) :=
  ⟨(rate_limiter_sliding_window.2 0 (List.replicate 9 0) 30 61 c1_len c1_pair c1_le c1_gt).1,
   (rate_limiter_sliding_window.2 0 (List.replicate 9 0) 30 61 c1_len c1_pair c1_le c1_gt).2,
   (rate_limiter_sliding_window.1 61 [0] (List.pairwise_singleton _ _)).1⟩

/-- Witness for C6: one call at 0 and one at 61. -/
theorem rate_record_invariant_witness :
    (∀ x ∈ rateRun ([(0:ℚ)] ++ [(61:ℚ)]), (61:ℚ) - 60 ≤ x)
    ∧ (rateRun ([(0:ℚ)] ++ [(61:ℚ)])).length ≤ 10 :=
  rate_record_invariant [0] 61 c6_pw

/-! ## Generic lemmas about the `re.sub` scan -/

lemma ctxOf_cons (p : Bool) (c : Char) (a : List Char) :
    ctxOf p (c :: a) = ctxOf (isWordChar c) a := by
  cases a with
  | nil => rfl
  | cons d a' =>
    rw [ctxOf, ctxOf, List.getLast?_cons_cons]
    cases h : (d :: a').getLast? with
    | none => exact absurd (List.getLast?_eq_none_iff.mp h) (by simp)
    | some e => rfl

lemma ctxOf_append_ne_nil (p q : Bool) (u : List Char) {a : List Char} (ha : a ≠ []) :
    ctxOf p (u ++ a) = ctxOf q a := by
  rw [ctxOf, ctxOf, List.getLast?_append_of_ne_nil _ ha]
  cases h : a.getLast? with
  | none => exact absurd (List.getLast?_eq_none_iff.mp h) ha
  | some e => rfl

lemma scanSub_subOut (m : MatchFn) :
    ∀ (fuel : Nat) (p : Bool) (s : List Char), s.length ≤ fuel →
      SubOut m p s (scanSubF m fuel p s).1 := by
  intro fuel
  induction fuel with
  | zero =>
    intro p s hs
    rw [List.length_eq_zero.mp (Nat.le_zero.mp hs)]
    exact SubOut.nil p
  | succ fuel ih =>
    intro p s hs
    cases s with
    | nil => exact SubOut.nil p
    | cons c cs =>
      simp only [List.length_cons] at hs
      cases hm : m p (c :: cs) with
      | none =>
        simp only [scanSubF, hm]
        exact SubOut.keep p c cs _ hm (ih (isWordChar c) cs (by omega))
      | some k =>
        simp only [scanSubF, hm]
        refine SubOut.repl p c cs k _ hm (ih _ _ ?_)
        have := List.length_drop (k - 1) cs
        omega

lemma scanSub_not_fired_id (m : MatchFn) :
    ∀ (fuel : Nat) (p : Bool) (s : List Char),
      (scanSubF m fuel p s).2 = false → (scanSubF m fuel p s).1 = s := by
  intro fuel
  induction fuel with
  | zero => intro p s _; rfl
  | succ fuel ih =>
    intro p s hf
    cases s with
    | nil => rfl
    | cons c cs =>
      cases hm : m p (c :: cs) with
      | none =>
        simp only [scanSubF, hm] at hf ⊢
        rw [ih (isWordChar c) cs hf]
      | some k =>
        simp only [scanSubF, hm] at hf
        exact Bool.noConfusion hf

lemma scanSub_fired_token (m : MatchFn) :
    ∀ (fuel : Nat) (p : Bool) (s : List Char),
      (scanSubF m fuel p s).2 = true →
      ∃ x y, (scanSubF m fuel p s).1 = x ++ redactedToken ++ y := by
  intro fuel
  induction fuel with
  | zero => intro p s hf; simp [scanSubF] at hf
  | succ fuel ih =>
    intro p s hf
    cases s with
    | nil => simp [scanSubF] at hf
    | cons c cs =>
      cases hm : m p (c :: cs) with
      | none =>
        simp only [scanSubF, hm] at hf ⊢
        obtain ⟨x, y, hxy⟩ := ih (isWordChar c) cs hf
        exact ⟨c :: x, y, by rw [hxy]; rfl⟩
      | some k =>
        simp only [scanSubF, hm]
        exact ⟨[], (scanSubF m fuel (isWordChar ((c :: cs).getD (k - 1) ' '))
          (List.drop (k - 1) cs)).1, by rw [List.nil_append]⟩

lemma scanSub_fired_of_match (m : MatchFn) :
    ∀ (a : List Char) (fuel : Nat) (p : Bool) (s c b),
      s = a ++ c :: b → s.length ≤ fuel → m (ctxOf p a) (c :: b) ≠ none →
      (scanSubF m fuel p s).2 = true := by
  intro a
  induction a with
  | nil =>
    intro fuel p s c b hs hlen hm
    subst hs
    cases fuel with
    | zero => simp at hlen
    | succ fuel =>
      rw [List.nil_append]
      cases hmm : m p (c :: b) with
      | none => exact absurd hmm hm
      | some k => simp only [scanSubF, hmm]
  | cons x a' ih =>
    intro fuel p s c b hs hlen hm
    subst hs
    cases fuel with
    | zero => simp at hlen
    | succ fuel =>
      rw [List.cons_append]
      cases hmm : m p (x :: (a' ++ c :: b)) with
      | some k => simp only [scanSubF, hmm]
      | none =>
        simp only [scanSubF, hmm]
        refine ih fuel (isWordChar x) _ c b rfl ?_ ?_
        · simp only [List.cons_append, List.length_cons] at hlen
          omega
        · rw [← ctxOf_cons p x a']
          exact hm

lemma scanSub_match_of_fired (m : MatchFn) :
    ∀ (fuel : Nat) (p : Bool) (s : List Char),
      (scanSubF m fuel p s).2 = true →
      ∃ a b, s = a ++ b ∧ m (ctxOf p a) b ≠ none := by
  intro fuel
  induction fuel with
  | zero => intro p s hf; simp [scanSubF] at hf
  | succ fuel ih =>
    intro p s hf
    cases s with
    | nil => simp [scanSubF] at hf
    | cons c cs =>
      cases hm : m p (c :: cs) with
      | some k =>
        refine ⟨[], c :: cs, rfl, ?_⟩
        have hc : ctxOf p [] = p := rfl
        rw [hc, hm]
        simp
      | none =>
        simp only [scanSubF, hm] at hf
        obtain ⟨a', b', hab, hnm⟩ := ih (isWordChar c) cs hf
        exact ⟨c :: a', b', by rw [hab, List.cons_append], by rw [ctxOf_cons]; exact hnm⟩

/-! ## The SSN rule replaces every occurrence: no match survives its own sub -/

lemma isWordChar_of_digit {c : Char} (h : c.isDigit = true) : isWordChar c = true := by
  simp [isWordChar, Char.isAlphanum, h]

lemma not_digit_of_not_word {c : Char} (h : isWordChar c = false) : c.isDigit = false := by
  by_contra h2
  rw [Bool.not_eq_false] at h2
  rw [isWordChar_of_digit h2] at h
  exact Bool.noConfusion h

lemma getD_drop {α} (d : α) : ∀ (l : List α) (n i : Nat), (l.drop n).getD i d = l.getD (n + i) d := by
  intro l
  induction l with
  | nil => intro n i; simp [List.drop_nil]
  | cons x l ih =>
    intro n i
    cases n with
    | zero => rw [List.drop_zero, Nat.zero_add]
    | succ n =>
      rw [List.drop_succ_cons, ih n i, show n + 1 + i = (n + i) + 1 from by omega,
        List.getD_cons_succ]

lemma head_getD_append {α} (d : α) (u v : List α) (hu : u ≠ []) :
    (u ++ v).getD 0 d = u.getD 0 d := by
  cases u with
  | nil => exact absurd rfl hu
  | cons x u' => rfl

lemma take_eq_getD {α} (d : α) : ∀ (n : Nat) (a b : List α), a.take n = b.take n →
    ∀ i, i < n → a.getD i d = b.getD i d := by
  intro n
  induction n with
  | zero => intro a b _ i hi; omega
  | succ n ih =>
    intro a b h i hi
    cases a with
    | nil =>
      cases b with
      | nil => rfl
      | cons y b' => simp at h
    | cons x a' =>
      cases b with
      | nil => simp at h
      | cons y b' =>
        simp only [List.take_succ_cons, List.cons.injEq] at h
        obtain ⟨rfl, h2⟩ := h
        cases i with
        | zero => rfl
        | succ i => exact ih a' b' h2 i (by omega)

lemma token_getD_not_digit : ∀ i : Nat, (redactedToken.getD i ' ').isDigit = false := by
  intro i
  match i with
  | 0 => rfl
  | 1 => rfl
  | 2 => rfl
  | 3 => rfl
  | 4 => rfl
  | 5 => rfl
  | 6 => rfl
  | 7 => rfl
  | 8 => rfl
  | 9 => rfl
  | n + 10 =>
    rw [List.getD_eq_default]
    · rfl
    · rw [show redactedToken.length = 10 from rfl]
      omega

lemma isShapeSSN_iff {l : List Char} : isShapeSSN l = true ↔
    11 ≤ l.length ∧ (l.getD 0 ' ').isDigit = true ∧ (l.getD 1 ' ').isDigit = true ∧
    (l.getD 2 ' ').isDigit = true ∧ l.getD 3 ' ' = '-' ∧ (l.getD 4 ' ').isDigit = true ∧
    (l.getD 5 ' ').isDigit = true ∧ l.getD 6 ' ' = '-' ∧ (l.getD 7 ' ').isDigit = true ∧
    (l.getD 8 ' ').isDigit = true ∧ (l.getD 9 ' ').isDigit = true ∧
    (l.getD 10 ' ').isDigit = true := by
  rw [isShapeSSN]
  simp only [Bool.and_eq_true, decide_eq_true_eq, beq_iff_eq]
  tauto

lemma afterBoundary_iff {l : List Char} {n : Nat} : afterBoundary l n = true ↔
    l.length ≤ n ∨ isWordChar (l.getD n ' ') = false := by
  rw [afterBoundary]
  simp only [Bool.or_eq_true, decide_eq_true_eq, Bool.not_eq_true']

lemma ssnM_true_eq_none (l : List Char) : ssnM true l = none := by
  simp [ssnM]

lemma ssnM_none_of_head {q : Bool} {b : List Char} (h : (b.getD 0 ' ').isDigit = false) :
    ssnM q b = none := by
  rw [ssnM, if_neg]
  intro hc
  simp only [Bool.and_eq_true] at hc
  have := (isShapeSSN_iff.mp hc.1.2).2.1
  rw [h] at this
  exact Bool.noConfusion this

lemma ssnM_some_inv {p : Bool} {l : List Char} {k : Nat} (h : ssnM p l = some k) :
    p = false ∧ isShapeSSN l = true ∧ afterBoundary l 11 = true ∧ k = 11 := by
  rw [ssnM] at h
  by_cases hc : (!p && isShapeSSN l && afterBoundary l 11) = true
  · rw [if_pos hc] at h
    have hk := Option.some.inj h
    simp only [Bool.and_eq_true, Bool.not_eq_true'] at hc
    exact ⟨hc.1.1, hc.1.2, hc.2, hk.symm⟩
  · rw [if_neg hc] at h
    exact Option.noConfusion h

lemma append_split_cases {α} : ∀ (tk o a b : List α), tk ++ o = a ++ b →
    (∃ a', a = tk ++ a' ∧ o = a' ++ b) ∨ (∃ i, i < tk.length ∧ b = tk.drop i ++ o) := by
  intro tk
  induction tk with
  | nil =>
    intro o a b h
    exact Or.inl ⟨a, by rw [List.nil_append], by rw [← h, List.nil_append]⟩
  | cons t tk' ih =>
    intro o a b h
    cases a with
    | nil =>
      right
      refine ⟨0, by simp, ?_⟩
      rw [List.nil_append] at h
      rw [List.drop_zero]
      exact h.symm
    | cons x a' =>
      rw [List.cons_append, List.cons_append] at h
      obtain ⟨rfl, h2⟩ := List.cons.inj h
      rcases ih o a' b h2 with ⟨a'', rfl, ho⟩ | ⟨i, hi, hb⟩
      · exact Or.inl ⟨a'', by rw [List.cons_append], ho⟩
      · refine Or.inr ⟨i + 1, by simp only [List.length_cons]; omega, ?_⟩
        rw [List.drop_succ_cons]
        exact hb

lemma subOut_true_head {u o : List Char} (h : SubOut ssnM true u o) :
    (o = [] ∧ u = []) ∨
      (∃ c o' u', o = c :: o' ∧ u = c :: u' ∧ SubOut ssnM (isWordChar c) u' o') := by
  cases h with
  | nil => exact Or.inl ⟨rfl, rfl⟩
  | keep p c cs o' hnone hsub => exact Or.inr ⟨c, o', cs, rfl, rfl, hsub⟩
  | repl p c cs k o' hsome hsub => exact absurd hsome (by simp [ssnM])

lemma subOut_shape_chase :
    ∀ (n : Nat) (q : Bool) (u o : List Char),
      SubOut ssnM q u o →
      (∀ i, i < n → ((o.getD i ' ').isDigit || (o.getD i ' ' == '-')) = true) →
      n ≤ o.length →
      o.take n = u.take n ∧
      (n = 0 ∨ SubOut ssnM (isWordChar (o.getD (n - 1) ' ')) (u.drop n) (o.drop n)) := by
  intro n
  induction n with
  | zero => intro q u o h _ _; exact ⟨rfl, Or.inl rfl⟩
  | succ n ih =>
    intro q u o h hsh hlen
    cases o with
    | nil => simp at hlen
    | cons d o₂ =>
      have hd : (d.isDigit || (d == '-')) = true := by
        have := hsh 0 (by omega)
        simpa using this
      have hdnl : d ≠ '[' := by
        intro hdd
        subst hdd
        simp at hd
      cases h with
      | keep p c cs o' hnone hsub =>
        obtain ⟨htake, hrest⟩ := ih (isWordChar d) cs o₂ hsub
          (fun i hi => by
            have := hsh (i + 1) (by omega)
            simpa using this)
          (by simp only [List.length_cons] at hlen; omega)
        constructor
        · simp only [List.take_succ_cons, htake]
        · right
          cases n with
          | zero =>
            simpa [List.getD_cons_zero, List.drop_succ_cons, List.drop_zero] using hsub
          | succ n' =>
            rcases hrest with h0 | hres
            · exact absurd h0 (by omega)
            · simp only [List.getD_cons_succ, List.drop_succ_cons]
              exact hres
      | repl p c cs k o' hsome hsub =>
        exact absurd rfl hdnl

lemma ssn_after_match {p : Bool} {c : Char} {cs o' : List Char} {k : Nat}
    (hsome : ssnM p (c :: cs) = some k)
    (hsub : SubOut ssnM (isWordChar ((c :: cs).getD (k - 1) ' ')) (List.drop (k - 1) cs) o') :
    ssnM false o' = none := by
  obtain ⟨-, hshape, hbound, rfl⟩ := ssnM_some_inv hsome
  have h10 : ((c :: cs).getD 10 ' ').isDigit = true :=
    (isShapeSSN_iff.mp hshape).2.2.2.2.2.2.2.2.2.2.2
  have hctx : isWordChar ((c :: cs).getD (11 - 1) ' ') = true := isWordChar_of_digit h10
  rw [hctx] at hsub
  rcases subOut_true_head hsub with ⟨rfl, -⟩ | ⟨ch, o2, u2, rfl, hu, -⟩
  · exact ssnM_none_of_head rfl
  · rcases afterBoundary_iff.mp hbound with hlen | hw
    · exfalso
      have hdl := congrArg List.length hu
      rw [List.length_drop] at hdl
      simp only [List.length_cons] at hdl hlen
      omega
    · have hch : (c :: cs).getD 11 ' ' = ch := by
        have h2 := getD_drop ' ' (c :: cs) 11 0
        rw [Nat.add_zero] at h2
        rw [← h2]
        show (List.drop (11 - 1) cs).getD 0 ' ' = ch
        rw [hu]
        rfl
      rw [hch] at hw
      exact ssnM_none_of_head (by rw [List.getD_cons_zero]; exact not_digit_of_not_word hw)

lemma ssn_crux {p : Bool} {c : Char} {cs o' : List Char}
    (hnone : ssnM p (c :: cs) = none)
    (hsub : SubOut ssnM (isWordChar c) cs o') :
    ssnM p (c :: o') = none := by
  cases p with
  | true => exact ssnM_true_eq_none _
  | false =>
    cases hk : ssnM false (c :: o') with
    | none => rfl
    | some k =>
      exfalso
      obtain ⟨-, hshape, hbound, rfl⟩ := ssnM_some_inv hk
      obtain ⟨hlen, hd0, hd1, hd2, he3, hd4, hd5, he6, hd7, hd8, hd9, hd10⟩ :=
        isShapeSSN_iff.mp hshape
      have hsh10 : ∀ i, i < 10 →
          ((o'.getD i ' ').isDigit || (o'.getD i ' ' == '-')) = true := by
        intro i hi
        interval_cases i
        · rw [show (o'.getD 0 ' ').isDigit = true from hd1, Bool.true_or]
        · rw [show (o'.getD 1 ' ').isDigit = true from hd2, Bool.true_or]
        · rw [show o'.getD 2 ' ' = '-' from he3]
          rfl
        · rw [show (o'.getD 3 ' ').isDigit = true from hd4, Bool.true_or]
        · rw [show (o'.getD 4 ' ').isDigit = true from hd5, Bool.true_or]
        · rw [show o'.getD 5 ' ' = '-' from he6]
          rfl
        · rw [show (o'.getD 6 ' ').isDigit = true from hd7, Bool.true_or]
        · rw [show (o'.getD 7 ' ').isDigit = true from hd8, Bool.true_or]
        · rw [show (o'.getD 8 ' ').isDigit = true from hd9, Bool.true_or]
        · rw [show (o'.getD 9 ' ').isDigit = true from hd10, Bool.true_or]
      have hlen10 : 10 ≤ o'.length := by
        simp only [List.length_cons] at hlen
        omega
      obtain ⟨htake, hrest⟩ := subOut_shape_chase 10 (isWordChar c) cs o' hsub hsh10 hlen10
      rcases hrest with h0 | hres
      · exact absurd h0 (by omega)
      have hctx : isWordChar (o'.getD (10 - 1) ' ') = true := isWordChar_of_digit hd10
      rw [hctx] at hres
      have hcs : ∀ i, i < 10 → cs.getD i ' ' = o'.getD i ' ' :=
        fun i hi => (take_eq_getD ' ' 10 o' cs htake i hi).symm
      have hcslen : 10 ≤ cs.length := by
        have := congrArg List.length htake
        rw [List.length_take, List.length_take] at this
        omega
      have hshape_in : isShapeSSN (c :: cs) = true := by
        rw [isShapeSSN_iff]
        refine ⟨by simp only [List.length_cons]; omega, hd0, ?_, ?_, ?_, ?_, ?_, ?_, ?_, ?_, ?_, ?_⟩
        · show (cs.getD 0 ' ').isDigit = true
          rw [hcs 0 (by omega)]
          exact hd1
        · show (cs.getD 1 ' ').isDigit = true
          rw [hcs 1 (by omega)]
          exact hd2
        · show cs.getD 2 ' ' = '-'
          rw [hcs 2 (by omega)]
          exact he3
        · show (cs.getD 3 ' ').isDigit = true
          rw [hcs 3 (by omega)]
          exact hd4
        · show (cs.getD 4 ' ').isDigit = true
          rw [hcs 4 (by omega)]
          exact hd5
        · show cs.getD 5 ' ' = '-'
          rw [hcs 5 (by omega)]
          exact he6
        · show (cs.getD 6 ' ').isDigit = true
          rw [hcs 6 (by omega)]
          exact hd7
        · show (cs.getD 7 ' ').isDigit = true
          rw [hcs 7 (by omega)]
          exact hd8
        · show (cs.getD 8 ' ').isDigit = true
          rw [hcs 8 (by omega)]
          exact hd9
        · show (cs.getD 9 ' ').isDigit = true
          rw [hcs 9 (by omega)]
          exact hd10
      have hmatch : afterBoundary (c :: cs) 11 = true → False := by
        intro hb
        have hss : ssnM false (c :: cs) = some 11 := by
          rw [ssnM, if_pos]
          rw [Bool.and_eq_true, Bool.and_eq_true]
          exact ⟨⟨rfl, hshape_in⟩, hb⟩
        rw [hss] at hnone
        exact Option.noConfusion hnone
      rcases subOut_true_head hres with ⟨ho, hcu⟩ | ⟨ch, o2, u2, ho, hu, -⟩
      · apply hmatch
        rw [afterBoundary_iff]
        left
        have := congrArg List.length hcu
        rw [List.length_drop] at this
        simp only [List.length_cons, List.length_nil] at this ⊢
        omega
      · rcases afterBoundary_iff.mp hbound with hlb | hw
        · exfalso
          have := congrArg List.length ho
          rw [List.length_drop] at this
          simp only [List.length_cons] at this hlb
          omega
        · apply hmatch
          rw [afterBoundary_iff]
          right
          have hcho : (c :: o').getD 11 ' ' = ch := by
            have h2 := getD_drop ' ' (c :: o') 11 0
            rw [Nat.add_zero] at h2
            rw [← h2]
            show (o'.drop 10).getD 0 ' ' = ch
            rw [ho]
            rfl
          have hchc : (c :: cs).getD 11 ' ' = ch := by
            have h2 := getD_drop ' ' (c :: cs) 11 0
            rw [Nat.add_zero] at h2
            rw [← h2]
            show (cs.drop 10).getD 0 ' ' = ch
            rw [hu]
            rfl
          rw [hchc]
          rw [hcho] at hw
          exact hw

lemma subOut_ssn_noMatch : ∀ {p : Bool} {t o : List Char}, SubOut ssnM p t o →
    ∀ a b : List Char, o = a ++ b → ssnM (ctxOf p a) b = none := by
  intro p t o h
  induction h with
  | nil p =>
    intro a b hab
    obtain ⟨rfl, rfl⟩ := List.append_eq_nil.mp hab.symm
    exact ssnM_none_of_head rfl
  | keep p c cs o' hnone hsub ih =>
    intro a b hab
    cases a with
    | nil =>
      rw [List.nil_append] at hab
      subst hab
      have hc : ctxOf p [] = p := rfl
      rw [hc]
      exact ssn_crux hnone hsub
    | cons x a' =>
      rw [List.cons_append] at hab
      obtain ⟨rfl, hab'⟩ := List.cons.inj hab
      rw [ctxOf_cons]
      exact ih a' b hab'
  | repl p c cs k o' hsome hsub ih =>
    intro a b hab
    rcases append_split_cases redactedToken o' a b hab with ⟨a', rfl, hob⟩ | ⟨i, hi, rfl⟩
    · cases a' with
      | nil =>
        rw [List.append_nil]
        have hctx : ctxOf p redactedToken = false := rfl
        rw [hctx]
        rw [List.nil_append] at hob
        subst hob
        exact ssn_after_match hsome hsub
      | cons x a'' =>
        rw [ctxOf_append_ne_nil p (isWordChar ((c :: cs).getD (k - 1) ' ')) redactedToken
          (by simp)]
        exact ih (x :: a'') b hob
    · apply ssnM_none_of_head
      have hne : redactedToken.drop i ≠ [] := by
        intro hnil
        have := congrArg List.length hnil
        rw [List.length_drop, show redactedToken.length = 10 from rfl] at this
        rw [show redactedToken.length = 10 from rfl] at hi
        simp only [List.length_nil] at this
        omega
      rw [head_getD_append ' ' _ _ hne, getD_drop ' ' redactedToken i 0, Nat.add_zero]
      exact token_getD_not_digit i

lemma reSearch_reSub_ssn : ∀ s : List Char, reSearch ssnM (reSub ssnM s) = false := by
  intro s
  by_contra hcon
  rw [Bool.not_eq_false] at hcon
  simp only [reSearch, reScan] at hcon
  obtain ⟨a, b, hab, hm⟩ :=
    scanSub_match_of_fired ssnM (reSub ssnM s).length false (reSub ssnM s) hcon
  exact hm (subOut_ssn_noMatch (scanSub_subOut ssnM s.length false s (le_refl _)) a b hab)

/-! ## The masking pipeline -/

lemma maskStep_warn_mono {st : List Char × List String} {pw : MatchFn × String} {w : String}
    (h : w ∈ st.2) : w ∈ (maskStep st pw).2 := by
  rw [maskStep]
  by_cases hf : (reScan pw.1 st.1).2 = true
  · rw [if_pos hf]
    exact List.mem_append_left _ h
  · rw [if_neg hf]
    exact h

lemma maskStep_fired_snd {st : List Char × List String} {pw : MatchFn × String}
    (h : (reScan pw.1 st.1).2 = true) :
    (maskStep st pw).2 = st.2 ++ [sensWarning pw.2] := by
  rw [maskStep, if_pos h]

lemma maskStep_fired_token {st : List Char × List String} (pw : MatchFn × String)
    (h : (reScan pw.1 st.1).2 = true) :
    ∃ x y, (maskStep st pw).1 = x ++ redactedToken ++ y := by
  rw [maskStep, if_pos h]
  exact scanSub_fired_token pw.1 st.1.length false st.1 h

lemma maskStep_token {st : List Char × List String} (pw : MatchFn × String)
    (h : ∃ x y, st.1 = x ++ redactedToken ++ y) :
    ∃ x y, (maskStep st pw).1 = x ++ redactedToken ++ y := by
  by_cases hf : (reScan pw.1 st.1).2 = true
  · exact maskStep_fired_token pw hf
  · rw [maskStep, if_neg hf]
    exact h

/-- C2: for every text containing a match of the SSN pattern, `_mask_sensitive`
emits the "SSN/SIN" warning, and the SSN substitution replaces every
occurrence: no match of the pattern survives in its output. -/
theorem ssn_masked_and_warned :
    ∀ s : List Char, reSearch ssnM s = true →
      sensWarning "SSN/SIN" ∈ (mask_sensitive s).2
      ∧ reSearch ssnM (reSub ssnM s) = false := by
  intro s h
  constructor
  · rw [mask_sensitive, maskPatterns, List.foldl_cons, List.foldl_cons, List.foldl_cons,
      List.foldl_cons, List.foldl_cons, List.foldl_nil]
    apply maskStep_warn_mono
    apply maskStep_warn_mono
    apply maskStep_warn_mono
    apply maskStep_warn_mono
    have h' : (reScan (ssnM, "SSN/SIN").1 ((s, ([] : List String))).1).2 = true := h
    rw [maskStep_fired_snd h']
    simp
  · exact reSearch_reSub_ssn s

/-- Witness for C2. -/
theorem ssn_masked_and_warned_witness :
    sensWarning "SSN/SIN" ∈ (mask_sensitive "123-45-6789".data).2
    ∧ reSearch ssnM (reSub ssnM "123-45-6789".data) = false :=
  ssn_masked_and_warned "123-45-6789".data (by decide)

lemma passportCodeM_on_token (y : List Char) :
    passportCodeM false
      ('R' :: 'E' :: 'D' :: 'A' :: 'C' :: 'T' :: 'E' :: 'D' :: ']' :: y) ≠ none := by
  rw [passportCodeM]
  rw [if_neg (by simp)]
  have hdec : decide (8 ≤ ('R' :: 'E' :: 'D' :: 'A' :: 'C' :: 'T' :: 'E' :: 'D' :: ']' :: y).length)
      = true := decide_eq_true (by simp only [List.length_cons]; omega)
  rw [if_pos ?c1]
  case c1 =>
    rw [hdec]
    rfl
  rw [if_neg ?c2]
  case c2 =>
    intro hcon
    exact Bool.noConfusion hcon
  rw [if_pos ?c3]
  case c3 =>
    rw [afterBoundary]
    rw [show isWordChar (('R' :: 'E' :: 'D' :: 'A' :: 'C' :: 'T' :: 'E' :: 'D' :: ']' :: y).getD 8 ' ')
        = false from rfl]
    simp
  simp

lemma maskUpTo_succ (n : Nat) (s : List Char) (pw : MatchFn × String)
    (h : maskPatterns[n]? = some pw) :
    maskUpTo (n + 1) s = maskStep (maskUpTo n s) pw := by
  rw [maskUpTo, maskUpTo, List.take_succ, h]
  rw [List.foldl_append]
  rfl

/-- C10: whenever any of the first three masking rules fires, the final
warning list also contains a "passport" warning, because the substituted
token `[REDACTED]` itself matches the later passport pattern
`\b[A-Z0-9]{8,9}\b` when that rule runs over the already-redacted text. -/
theorem redaction_token_triggers_passport :
    ∀ s : List Char,
      (reSearch ssnM (maskUpTo 0 s).1 = true
        ∨ reSearch sinM (maskUpTo 1 s).1 = true
        ∨ reSearch creditCardM (maskUpTo 2 s).1 = true) →
      sensWarning "passport" ∈ (mask_sensitive s).2 := by
  intro s hfire
  have e1 := maskUpTo_succ 0 s (ssnM, "SSN/SIN") rfl
  have e2 := maskUpTo_succ 1 s (sinM, "SIN") rfl
  have e3 := maskUpTo_succ 2 s (creditCardM, "credit card") rfl
  have e4 := maskUpTo_succ 3 s (passportAlphaM, "passport") rfl
  have e5 : mask_sensitive s = maskStep (maskUpTo 4 s) (passportCodeM, "passport") := by
    rw [show mask_sensitive s = maskUpTo 5 s from by
      rw [mask_sensitive, maskUpTo, show maskPatterns.take 5 = maskPatterns from rfl]]
    exact maskUpTo_succ 4 s (passportCodeM, "passport") rfl
  have htok3 : ∃ x y, (maskUpTo 3 s).1 = x ++ redactedToken ++ y := by
    rcases hfire with h | h | h
    · rw [e3]
      apply maskStep_token
      rw [e2]
      apply maskStep_token
      rw [e1]
      exact maskStep_fired_token (ssnM, "SSN/SIN") h
    · rw [e3]
      apply maskStep_token
      rw [e2]
      exact maskStep_fired_token (sinM, "SIN") h
    · rw [e3]
      exact maskStep_fired_token (creditCardM, "credit card") h
  have htok4 : ∃ x y, (maskUpTo 4 s).1 = x ++ redactedToken ++ y := by
    rw [e4]
    exact maskStep_token _ htok3
  have h5 : (reScan (passportCodeM, ("passport" : String)).1 (maskUpTo 4 s).1).2 = true := by
    obtain ⟨x, y, hxy⟩ := htok4
    have hsplit : (maskUpTo 4 s).1 =
        (x ++ ['[']) ++ 'R' :: ('E' :: 'D' :: 'A' :: 'C' :: 'T' :: 'E' :: 'D' :: ']' :: y) := by
      rw [hxy, redactedToken]
      simp
    exact scanSub_fired_of_match passportCodeM (x ++ ['[']) (maskUpTo 4 s).1.length false
      (maskUpTo 4 s).1 'R' ('E' :: 'D' :: 'A' :: 'C' :: 'T' :: 'E' :: 'D' :: ']' :: y)
      hsplit (le_refl _)
      (by rw [ctxOf_append_ne_nil false false x (by simp),
            show ctxOf false ['['] = false from rfl]
          exact passportCodeM_on_token y)
  rw [e5, maskStep_fired_snd h5]
  exact List.mem_append_right _ (List.mem_singleton.mpr rfl)

/-- Witness for C10: an SSN alone ends with a "passport" warning. -/
theorem redaction_token_triggers_passport_witness :
    sensWarning "passport" ∈ (mask_sensitive "123-45-6789".data).2 :=
  redaction_token_triggers_passport "123-45-6789".data (Or.inl (by decide))

/-- C4 counterexample: on the undecodable input `" hi "` the fallback answer
is the stripped text `"hi"`, not the raw text `" hi "` the claim states. -/
theorem parse_model_json_strips_counterexample :
    jsonLoads " hi " = none
    ∧ parse_model_json " hi " =
        [("assistant_answer", Json.str "hi"),
         ("suggested_fill_en", Json.str ""), ("warnings", Json.arr [])]
    ∧ pyStrip " hi " ≠ " hi " :=
  ⟨rfl, rfl, by decide⟩

/-- C4 (amended): a successful object decode is returned as is; on decode
failure or a decoded non-object, the result is the fallback dict whose answer
is the raw text stripped of surrounding whitespace, with empty suggestion and
no warnings. -/
theorem parse_model_json_fallback :
    (∀ (text : String) (fields : List (String × Json)),
        jsonLoads text = some (Json.obj fields) → parse_model_json text = fields)
    ∧ (∀ text : String, isObjDecode (jsonLoads text) = false →
        parse_model_json text = parseFallback text) := by
  constructor
  · intro text fields h
    rw [parse_model_json, h]
  · intro text h
    rw [parse_model_json]
    cases hj : jsonLoads text with
    | none => rfl
    | some j =>
      cases j with
      | null => rfl
      | bool b => rfl
      | num s => rfl
      | str s => rfl
      | arr a => rfl
      | obj f =>
        rw [hj] at h
        exact absurd h (by simp [isObjDecode])

/-- Witness for C4: a decoded object is returned as is, and `" hi "` falls
back to the stripped-text dict. -/
theorem parse_model_json_fallback_witness :
    parse_model_json "\x7b\x7d" = [] ∧ parse_model_json " hi " = parseFallback " hi " :=
  ⟨parse_model_json_fallback.1 "\x7b\x7d" [] rfl,
   parse_model_json_fallback.2 " hi " rfl⟩

/-- Witness for C5: an existing encrypted document whose blank-password
decrypt fails loads as BadInput. -/
theorem load_pdf_reader_error_taxonomy_witness :
    load_pdf_reader ⟨true, true, false⟩ = Except.error PdfLoadError.badInput :=
  (load_pdf_reader_error_taxonomy ⟨true, true, false⟩).2.1.mpr ⟨rfl, rfl, rfl⟩
